import Mathlib

/-!
Shallow embedding of the NOMAD workflow-recreator core
(`src/workflow_orchestrator.py`, `src/nomad_server_improved.py`,
`enhance_cluster_relationships.py`, `cluster_size_relationships.py`)
and proofs about the specified properties.

Dictionaries are modelled as insertion-ordered association lists, Python
`sorted` as a stable insertion sort, float confidences as rationals, and
the remote service / graph store as explicit state and oracles.
-/

/-! ## Generic helpers -/

theorem length_dropWhile_le (p : α → Bool) (l : List α) :
    (l.dropWhile p).length ≤ l.length :=
  (List.dropWhile_sublist p).length_le

/-- Python dict update `d[k] += n` with default-insert at the end:
if the key is present, add to its value in place; otherwise append. -/
def addCount : List (String × Nat) → String → Nat → List (String × Nat)
  | [], e, n => [(e, n)]
  | (k, v) :: rest, e, n =>
    if k = e then (k, v + n) :: rest else (k, v) :: addCount rest e n

/-! ## Formula parser (`parse_formula_carefully`, enhance_cluster_relationships.py
lines 316-345; the rule-3 scan is also `_parse_formula_elements`,
cluster_size_relationships.py lines 184-200). -/

/-- Value of a digit string, as computed by Python `int`. -/
def digitsToNat (ds : List Char) : Nat :=
  ds.foldl (fun n c => 10 * n + (c.toNat - 48)) 0

/-- Symbol made of an uppercase letter and the optional following lowercase
letter (`[A-Z][a-z]?`); returns the symbol and the unconsumed tail. -/
def afterSym (c : Char) (rest : List Char) : String × List Char :=
  match rest with
  | c2 :: rest2 =>
    if c2.isLower then (String.mk [c, c2], rest2) else (String.mk [c], rest)
  | [] => (String.mk [c], [])

theorem afterSym_length (c : Char) (rest : List Char) :
    (afterSym c rest).2.length ≤ rest.length := by
  cases rest with
  | nil => simp [afterSym]
  | cons c2 rest2 =>
    simp only [afterSym]
    split <;> simp

/-- The token scan of `re.findall(r'([A-Z][a-z]?)(\d*)', formula)`: at each
uppercase letter, take an optional lowercase letter then a maximal (possibly
empty) digit run; characters that start no match are skipped. -/
def scanTokens : List Char → List (String × List Char)
  | [] => []
  | c :: rest =>
    if c.isUpper then
      ((afterSym c rest).1, (afterSym c rest).2.takeWhile Char.isDigit) ::
        scanTokens ((afterSym c rest).2.dropWhile Char.isDigit)
    else scanTokens rest
termination_by l => l.length
decreasing_by
  all_goals simp only [List.length_cons]
  · have h := afterSym_length c rest
    have h2 := length_dropWhile_le Char.isDigit (afterSym c rest).2
    omega
  · omega

/-- Count attached to one scanned token: `int(count_str) if count_str else 1`. -/
def tokCount (t : String × List Char) : Nat :=
  if t.2.isEmpty then 1 else digitsToNat t.2

/-- The rule-3 accumulation loop over the scanned tokens
(`elements[element] += count` / `elements[element] = count`). -/
def scanFormula (s : String) : List (String × Nat) :=
  (scanTokens s.data).foldl (fun m t => addCount m t.1 (tokCount t)) []

/-- Rule 1, `re.match(r'^([A-Z][a-z]?)(\d+)$', formula)`: the whole string is
one element symbol followed by one-or-more digits. -/
def matchSimple : List Char → Option (String × List Char)
  | [] => none
  | c :: rest =>
    if c.isUpper then
      match rest with
      | [] => none
      | c2 :: rest2 =>
        if c2.isLower then
          if !rest2.isEmpty && rest2.all Char.isDigit then
            some (String.mk [c, c2], rest2)
          else none
        else
          if (c2 :: rest2).all Char.isDigit then
            some (String.mk [c], c2 :: rest2)
          else none
    else none

/-- Rule 2, `re.match(r'^([A-Z][a-z]?)$', formula)`: the whole string is
exactly one element symbol. -/
def matchSingle : List Char → Option String
  | [c] => if c.isUpper then some (String.mk [c]) else none
  | [c, c2] => if c.isUpper && c2.isLower then some (String.mk [c, c2]) else none
  | _ => none

/-- `parse_formula_carefully`: three ordered rules. -/
def parse_formula_carefully (s : String) : List (String × Nat) :=
  match matchSimple s.data with
  | some (e, ds) => [(e, digitsToNat ds)]
  | none =>
    match matchSingle s.data with
    | some e => [(e, 1)]
    | none => scanFormula s

/-- Total count contributed by the tokens carrying a given symbol. -/
def symbolTotal (toks : List (String × List Char)) (e : String) : Nat :=
  (toks.map (fun t => if t.1 = e then tokCount t else 0)).sum

/-! ## Lemmas about the parser -/

theorem digit_toNat_bounds (c : Char) (h : c.isDigit = true) :
    48 ≤ c.toNat ∧ c.toNat ≤ 57 := by
  simp only [Char.isDigit, decide_eq_true_eq, Bool.and_eq_true] at h
  exact ⟨h.1, h.2⟩

theorem char_eq_zero_of_toNat (c : Char) (h : c.toNat = 48) : c = '0' := by
  have hv : c.val.toNat = (48 : UInt32).toNat := h
  exact Char.ext (UInt32.toNat.inj hv)

theorem lookup_cons (e k : String) (v : Nat) (rest : List (String × Nat)) :
    List.lookup e ((k, v) :: rest) =
      if e = k then some v else List.lookup e rest := by
  rw [List.lookup]
  cases h : e == k
  · simp only [Bool.false_eq_true, ne_eq]
    rw [if_neg]
    simpa [beq_iff_eq] using h
  · rw [if_pos]
    simpa [beq_iff_eq] using h

theorem lookup_addCount (m : List (String × Nat)) (f : String) (n : Nat)
    (e : String) :
    List.lookup e (addCount m f n) =
      if e = f then some ((List.lookup e m).getD 0 + n)
      else List.lookup e m := by
  induction m with
  | nil =>
    simp only [addCount, List.lookup_nil, lookup_cons]
    by_cases h : e = f <;> simp [h]
  | cons kv rest ih =>
    obtain ⟨k, v⟩ := kv
    simp only [addCount]
    by_cases hkf : k = f
    · subst hkf
      rw [if_pos rfl]
      by_cases hek : e = k
      · subst hek
        simp [lookup_cons]
      · simp [lookup_cons, hek]
    · rw [if_neg hkf]
      by_cases hek : e = k
      · subst hek
        simp [lookup_cons, Ne.symm, hkf]
      · simp only [lookup_cons, if_neg hek]
        exact ih

theorem foldl_addCount_lookup (toks : List (String × List Char))
    (m : List (String × Nat)) (e : String) :
    List.lookup e (toks.foldl (fun m t => addCount m t.1 (tokCount t)) m) =
      match List.lookup e m with
      | some v => some (v + symbolTotal toks e)
      | none =>
        if toks.any (fun t => t.1 == e) then some (symbolTotal toks e)
        else none := by
  induction toks generalizing m with
  | nil =>
    simp only [List.foldl_nil, symbolTotal, List.map_nil, List.sum_nil,
      List.any_nil, if_false]
    cases List.lookup e m <;> simp
  | cons t ts ih =>
    simp only [List.foldl_cons]
    rw [ih, lookup_addCount]
    by_cases het : e = t.1
    · subst het
      rw [if_pos rfl]
      cases hm : List.lookup t.1 m with
      | some v =>
        simp only [hm, Option.getD_some, symbolTotal, List.map_cons,
          List.sum_cons, eq_self_iff_true, if_true, Option.some.injEq]
        omega
      | none =>
        simp only [hm, Option.getD_none, symbolTotal, List.map_cons,
          List.sum_cons, eq_self_iff_true, if_true, List.any_cons,
          beq_self_eq_true, Bool.true_or, Option.some.injEq]
        omega
    · have hne : (t.1 == e) = false := by
        simpa [beq_iff_eq] using fun h => het h.symm
      have hif : (if t.1 = e then tokCount t else 0) = 0 :=
        if_neg (fun h => het h.symm)
      rw [if_neg het]
      cases hm : List.lookup e m with
      | some v =>
        simp only [hm, symbolTotal, List.map_cons, List.sum_cons, hif,
          Nat.zero_add]
      | none =>
        simp only [hm, symbolTotal, List.map_cons, List.sum_cons,
          List.any_cons, hne, Bool.false_or, hif, Nat.zero_add]

theorem scanTokens_nil_of_noUpper (l : List Char)
    (h : ∀ c ∈ l, c.isUpper = false) : scanTokens l = [] := by
  induction l with
  | nil => rw [scanTokens]
  | cons c rest ih =>
    have hc : c.isUpper = false := h c (List.mem_cons_self c rest)
    rw [scanTokens, if_neg (by simp [hc])]
    exact ih fun c2 hc2 => h c2 (List.mem_cons_of_mem c hc2)

theorem matchSimple_none_of_noUpper (l : List Char)
    (h : ∀ c ∈ l, c.isUpper = false) : matchSimple l = none := by
  cases l with
  | nil => rfl
  | cons c rest => simp [matchSimple, h c (List.mem_cons_self c rest)]

theorem matchSingle_none_of_noUpper (l : List Char)
    (h : ∀ c ∈ l, c.isUpper = false) : matchSingle l = none := by
  cases l with
  | nil => rfl
  | cons c rest =>
    cases rest with
    | nil => simp [matchSingle, h c (List.mem_cons_self c _)]
    | cons c2 rest2 =>
      cases rest2 with
      | nil => simp [matchSingle, h c (List.mem_cons_self c _)]
      | cons c3 rest3 => rfl

/-- C5: the formula parser is a total function on strings implementing the
three ordered rules: it returns the specified maps on "Ag4", "W2", "He" and
"", returns the empty map on any input with no element-symbol token in it
(in particular empty or all-lowercase/garbage input), and the token-scanning
rule sums the counts of a repeatedly occurring symbol instead of overwriting
them (the lookup of a symbol in the scanned map is the sum of the counts of
all its tokens). -/
theorem formula_parser_spec :
    parse_formula_carefully "Ag4" = [("Ag", 4)] ∧
    parse_formula_carefully "W2" = [("W", 2)] ∧
    parse_formula_carefully "He" = [("He", 1)] ∧
    parse_formula_carefully "" = [] ∧
    (∀ s : String, (∀ c ∈ s.data, c.isUpper = false) →
      parse_formula_carefully s = []) ∧
    (∀ s e : String,
      List.lookup e (scanFormula s) =
        if (scanTokens s.data).any (fun t => t.1 == e) then
          some (symbolTotal (scanTokens s.data) e)
        else none) := by
  refine ⟨rfl, rfl, rfl, ?_, ?_, ?_⟩
  · simp [parse_formula_carefully, matchSimple, matchSingle, scanFormula,
      scanTokens]
  · intro s h
    have h1 := matchSimple_none_of_noUpper s.data h
    have h2 := matchSingle_none_of_noUpper s.data h
    have h3 : scanFormula s = [] := by
      rw [scanFormula, scanTokens_nil_of_noUpper s.data h, List.foldl_nil]
    simp only [parse_formula_carefully, h1, h2, h3]
  · intro s e
    rw [scanFormula, foldl_addCount_lookup]
    simp only [List.lookup_nil]

/-- Witness for the quantified conjuncts of the C5 theorem at concrete
inputs. -/
theorem formula_parser_spec_witness :
    ((∀ c ∈ ("xy4z!" : String).data, c.isUpper = false) ∧
      parse_formula_carefully "xy4z!" = []) ∧
    List.lookup "H" (scanFormula "H2OH") =
      (if (scanTokens ("H2OH" : String).data).any (fun t => t.1 == "H") then
        some (symbolTotal (scanTokens ("H2OH" : String).data) "H")
      else none) :=
  ⟨⟨by decide, formula_parser_spec.2.2.2.2.1 "xy4z!" (by decide)⟩,
    formula_parser_spec.2.2.2.2.2 "H2OH" "H"⟩

theorem digitsFold_pos (ds : List Char) (n : Nat) (hn : 0 < n) :
    0 < List.foldl (fun n c => 10 * n + (c.toNat - 48)) n ds := by
  induction ds generalizing n with
  | nil => simpa
  | cons c rest ih =>
    simp only [List.foldl_cons]
    exact ih _ (by omega)

theorem digitsToNat_pos (ds : List Char) (hne : ds ≠ [])
    (hd : ∀ c ∈ ds, c.isDigit = true) (hz : ∀ c ∈ ds, c ≠ '0') :
    0 < digitsToNat ds := by
  cases ds with
  | nil => exact absurd rfl hne
  | cons c rest =>
    have hb := digit_toNat_bounds c (hd c (List.mem_cons_self c rest))
    have hc0 : c.toNat ≠ 48 := fun hh =>
      hz c (List.mem_cons_self c rest) (char_eq_zero_of_toNat c hh)
    rw [digitsToNat]
    simp only [List.foldl_cons]
    exact digitsFold_pos rest _ (by omega)

theorem afterSym_sublist (c : Char) (rest : List Char) :
    (afterSym c rest).2.Sublist rest := by
  cases rest with
  | nil => simp [afterSym]
  | cons c2 rest2 =>
    simp only [afterSym]
    split
    · exact List.sublist_cons_self c2 rest2
    · exact List.Sublist.refl _

theorem scanTokens_digits (l : List Char) :
    ∀ t ∈ scanTokens l, ∀ c ∈ t.2, c.isDigit = true ∧ c ∈ l := by
  induction l using scanTokens.induct with
  | case1 => simp [scanTokens]
  | case2 c rest hu ih =>
    intro t ht c2 hc2
    rw [scanTokens, if_pos hu] at ht
    rcases List.mem_cons.mp ht with rfl | hmem
    · refine ⟨List.mem_takeWhile_imp hc2, ?_⟩
      have h1 : c2 ∈ (afterSym c rest).2 :=
        (List.takeWhile_sublist _).mem hc2
      exact List.mem_cons_of_mem c ((afterSym_sublist c rest).mem h1)
    · have h0 := ih t hmem c2 hc2
      refine ⟨h0.1, ?_⟩
      have h1 : c2 ∈ (afterSym c rest).2 :=
        (List.dropWhile_sublist _).mem h0.2
      exact List.mem_cons_of_mem c ((afterSym_sublist c rest).mem h1)
  | case3 c rest hu ih =>
    intro t ht c2 hc2
    rw [scanTokens, if_neg hu] at ht
    have h0 := ih t ht c2 hc2
    exact ⟨h0.1, List.mem_cons_of_mem c h0.2⟩

theorem tokCount_pos (l : List Char) (hz : ∀ c ∈ l, c ≠ '0')
    (t : String × List Char) (ht : t ∈ scanTokens l) : 0 < tokCount t := by
  rw [tokCount]
  split
  · exact Nat.one_pos
  · rename_i hne
    refine digitsToNat_pos t.2 ?_ ?_ ?_
    · intro hnil
      simp [hnil] at hne
    · exact fun c hc => (scanTokens_digits l t ht c hc).1
    · exact fun c hc => hz c (scanTokens_digits l t ht c hc).2

theorem addCount_pos (m : List (String × Nat)) (hm : ∀ p ∈ m, 0 < p.2)
    (e : String) (n : Nat) (hn : 0 < n) :
    ∀ p ∈ addCount m e n, 0 < p.2 := by
  induction m with
  | nil =>
    intro p hp
    rcases List.mem_singleton.mp hp with rfl
    exact hn
  | cons kv rest ih =>
    obtain ⟨k, v⟩ := kv
    rw [addCount]
    split
    · intro p hp
      rcases List.mem_cons.mp hp with rfl | hmem
      · have := hm (k, v) (List.mem_cons_self _ _)
        simpa using by omega
      · exact hm p (List.mem_cons_of_mem _ hmem)
    · intro p hp
      rcases List.mem_cons.mp hp with rfl | hmem
      · exact hm (k, v) (List.mem_cons_self _ _)
      · exact ih (fun q hq => hm q (List.mem_cons_of_mem _ hq)) p hmem

theorem foldl_addCount_pos (toks : List (String × List Char))
    (htoks : ∀ t ∈ toks, 0 < tokCount t) (m : List (String × Nat))
    (hm : ∀ p ∈ m, 0 < p.2) :
    ∀ p ∈ toks.foldl (fun m t => addCount m t.1 (tokCount t)) m, 0 < p.2 := by
  induction toks generalizing m with
  | nil =>
    simp only [List.foldl_nil]
    exact hm
  | cons t ts ih =>
    simp only [List.foldl_cons]
    exact ih (fun q hq => htoks q (List.mem_cons_of_mem _ hq)) _
      (addCount_pos m hm t.1 (tokCount t)
        (htoks t (List.mem_cons_self _ _)))

theorem matchSimple_digits (l : List Char) (e : String) (ds : List Char)
    (h : matchSimple l = some (e, ds)) :
    ds ≠ [] ∧ (∀ c ∈ ds, c.isDigit = true) ∧ (∀ c ∈ ds, c ∈ l) := by
  cases l with
  | nil => simp [matchSimple] at h
  | cons c rest =>
    by_cases hu : c.isUpper
    · cases rest with
      | nil => simp [matchSimple, hu] at h
      | cons c2 rest2 =>
        by_cases hl : c2.isLower
        · rw [matchSimple, if_pos hu, if_pos hl] at h
          split at h
          · rename_i hcond
            obtain ⟨rfl, rfl⟩ := Prod.mk.injEq .. ▸ Option.some.inj h
            simp only [Bool.and_eq_true, Bool.not_eq_true',
              List.all_eq_true] at hcond
            refine ⟨?_, fun c3 hc3 => hcond.2 c3 hc3, ?_⟩
            · intro hnil
              rw [hnil] at hcond
              simp at hcond
            · exact fun c3 hc3 =>
                List.mem_cons_of_mem c (List.mem_cons_of_mem c2 hc3)
          · cases h
        · rw [matchSimple, if_pos hu, if_neg hl] at h
          split at h
          · rename_i hcond
            obtain ⟨rfl, rfl⟩ := Prod.mk.injEq .. ▸ Option.some.inj h
            simp only [List.all_eq_true] at hcond
            exact ⟨by simp, fun c3 hc3 => hcond c3 hc3,
              fun c3 hc3 => List.mem_cons_of_mem c hc3⟩
          · cases h
    · simp [matchSimple, hu] at h

/-- C6 as stated is false: `parse_formula_carefully "W0"` contains the
count 0, which is not strictly positive (rule 1 accepts an explicit zero
digit group). -/
theorem parse_count_zero_counterexample :
    ¬ (∀ s : String, ∀ p ∈ parse_formula_carefully s, 0 < p.2) := by
  intro h
  have h0 : (0 : Nat) < 0 := by
    have hmem : (("W" : String), (0 : Nat)) ∈ parse_formula_carefully "W0" := by
      rw [show parse_formula_carefully "W0" = [("W", 0)] from rfl]
      exact List.mem_singleton.mpr rfl
    exact h "W0" ("W", 0) hmem
  exact Nat.lt_irrefl 0 h0

/-- C6 amended: every parsed count is a nonnegative integer; whenever the
input contains no zero digit (so every digit group denotes a positive
number), every count is strictly positive, and the total atom count of a
non-empty parsed map is then strictly positive. -/
theorem parse_counts_positive (s : String) (h : ∀ c ∈ s.data, c ≠ '0') :
    (∀ p ∈ parse_formula_carefully s, 0 < p.2) ∧
    (parse_formula_carefully s ≠ [] →
      0 < ((parse_formula_carefully s).map Prod.snd).sum) := by
  have main : ∀ p ∈ parse_formula_carefully s, 0 < p.2 := by
    cases hms : matchSimple s.data with
    | some pr =>
      obtain ⟨e, ds⟩ := pr
      simp only [parse_formula_carefully, hms]
      intro p hp
      rcases List.mem_singleton.mp hp with rfl
      obtain ⟨h1, h2, h3⟩ := matchSimple_digits s.data e ds hms
      exact digitsToNat_pos ds h1 h2 (fun c hc => h c (h3 c hc))
    | none =>
      cases hmsi : matchSingle s.data with
      | some e =>
        simp only [parse_formula_carefully, hms, hmsi]
        intro p hp
        rcases List.mem_singleton.mp hp with rfl
        exact Nat.one_pos
      | none =>
        simp only [parse_formula_carefully, hms, hmsi, scanFormula]
        exact foldl_addCount_pos (scanTokens s.data)
          (fun t ht => tokCount_pos s.data h t ht) [] (by simp)
  refine ⟨main, fun hne => ?_⟩
  cases hp : parse_formula_carefully s with
  | nil => exact absurd hp hne
  | cons p rest =>
    have hpos := main p (hp ▸ List.mem_cons_self p rest)
    simp only [List.map_cons, List.sum_cons]
    omega

/-- Witness for the amended C6 theorem at a concrete input. -/
theorem parse_counts_positive_witness :
    (∀ c ∈ ("H2OH" : String).data, c ≠ '0') ∧
    ((∀ p ∈ parse_formula_carefully "H2OH", 0 < p.2) ∧
      (parse_formula_carefully "H2OH" ≠ [] →
        0 < ((parse_formula_carefully "H2OH").map Prod.snd).sum)) :=
  ⟨by decide, parse_counts_positive "H2OH" (by decide)⟩

/-! ## Workflow orchestrator data model (`workflow_orchestrator.py`) -/

/-- The file-structure dict attached to a `WorkflowEntry`. The list fields are
the keys produced by `_analyze_file_structure`; the two boolean fields model
the truthiness of `file_structure.get("has_input_files")` /
`.get("has_output_files")` read by the heuristics (an absent key reads as
false). -/
structure FileStructure where
  total_files : Nat
  input_files : List String
  output_files : List String
  script_files : List String
  has_input_files : Bool
  has_output_files : Bool
deriving DecidableEq, Repr

/-- `WorkflowEntry` dataclass. `workflow_metadata` is carried as an opaque
key/value payload (it is never read by the inference code). -/
structure WorkflowEntry where
  entry_id : String
  entry_name : String
  entry_type : String
  formula : String
  upload_name : String
  workflow_metadata : List (String × String)
  file_structure : FileStructure
deriving DecidableEq, Repr

/-- Python substring test `kw in s.lower()` (ASCII lowering, as the keyword
tables are ASCII). -/
def kwIn (kw s : String) : Bool :=
  (s.data.map Char.toLower).tails.any (fun t => kw.data.isPrefixOf t)

/-- The keyword-bucket part of `execution_priority`: 100 default, then the
if/elif chain over `entry_type.lower()`. -/
def basePriority (e : WorkflowEntry) : Int :=
  if kwIn "geometry" e.entry_type || kwIn "optimization" e.entry_type then 10
  else if kwIn "scf" e.entry_type || kwIn "dft" e.entry_type then 20
  else if kwIn "dos" e.entry_type || kwIn "band" e.entry_type then 30
  else if kwIn "analysis" e.entry_type || kwIn "post" e.entry_type then 40
  else 100

/-- The file-structure adjustment applied after the keyword chain. -/
def fileNudge (e : WorkflowEntry) : Int :=
  if e.file_structure.has_input_files && !e.file_structure.has_output_files
    then -5
  else if e.file_structure.has_output_files && !e.file_structure.has_input_files
    then 5
  else 0

/-- `execution_priority` (lines 376-399): lower sorts earlier. -/
def execution_priority (e : WorkflowEntry) : Int :=
  basePriority e + fileNudge e

/-- Stable insertion of an element after all already-placed elements of
lower-or-equal key (the unique stable-ascending placement). -/
def insertByPriority (x : WorkflowEntry) :
    List WorkflowEntry → List WorkflowEntry
  | [] => [x]
  | y :: ys =>
    if execution_priority y ≤ execution_priority x then
      y :: insertByPriority x ys
    else x :: y :: ys

/-- `_sort_entries_by_execution_order`: Python `sorted(entries,
key=execution_priority)` is a stable ascending sort, whose output is
uniquely determined; it is realised here as a stable insertion sort. -/
def sort_entries_by_execution_order (entries : List WorkflowEntry) :
    List WorkflowEntry :=
  entries.foldl (fun acc x => insertByPriority x acc) []

/-- `_determine_relationship_type` (lines 403-420). -/
def determine_relationship_type (f t : WorkflowEntry) : String :=
  if kwIn "geometry" f.entry_type && kwIn "scf" t.entry_type then
    "PROVIDES_STRUCTURE"
  else if kwIn "scf" f.entry_type &&
      (kwIn "dos" t.entry_type || kwIn "band" t.entry_type) then
    "PROVIDES_ELECTRONIC_STRUCTURE"
  else if f.entry_type = t.entry_type then "SIMILAR_CALCULATION"
  else if f.file_structure.has_output_files &&
      t.file_structure.has_input_files then
    "PROVIDES_INPUT_DATA"
  else "WORKFLOW_STEP"

/-- `_are_compatible_entry_types` (lines 440-452). -/
def compatibleSequences : List (List String) :=
  [["geometry_optimization", "single_point", "dos"],
   ["structure", "scf", "band_structure"],
   ["optimization", "frequency", "thermodynamics"]]

def lowerStr (s : String) : String :=
  String.mk (s.data.map Char.toLower)

def are_compatible_entry_types (t1 t2 : String) : Bool :=
  compatibleSequences.any
    (fun seq => seq.contains (lowerStr t1) && seq.contains (lowerStr t2))

/-- `_calculate_relationship_confidence` (lines 422-438); Python floats are
modelled as rationals (all the constants are exact decimal fractions). -/
def calculate_relationship_confidence (f t : WorkflowEntry) : ℚ :=
  min ((1/2 : ℚ)
    + (if f.formula = t.formula ∧ f.formula ≠ "" then 3/10 else 0)
    + (if f.file_structure.has_output_files &&
        t.file_structure.has_input_files then 1/5 else 0)
    + (if are_compatible_entry_types f.entry_type t.entry_type then 1/5
       else 0)) 1

/-- A persisted relationship dict: `properties.upload_cluster` and
`properties.formula` are optional keys (present only on the edge kinds that
set them). -/
structure Relationship where
  from_entry_id : String
  to_entry_id : String
  relationship_type : String
  upload_cluster : Option String
  formula : Option String
  confidence : ℚ
deriving DecidableEq, Repr

/-- One sequential relationship between two adjacent classified entries. -/
def mkSeqRel (upload_name : String) (a b : WorkflowEntry) : Relationship :=
  { from_entry_id := a.entry_id
    to_entry_id := b.entry_id
    relationship_type := determine_relationship_type a b
    upload_cluster := some upload_name
    formula := none
    confidence := calculate_relationship_confidence a b }

/-- The `for i in range(len(sorted_entries) - 1)` loop over adjacent pairs. -/
def seqRels (upload_name : String) :
    List WorkflowEntry → List Relationship
  | a :: b :: rest => mkSeqRel upload_name a b :: seqRels upload_name (b :: rest)
  | _ => []

/-- Python `defaultdict`-style upsert that appends the new element to the
existing group, preserving key insertion order. -/
def upsertApp {κ β : Type} [DecidableEq κ] (k : κ) (v : β) :
    List (κ × List β) → List (κ × List β)
  | [] => [(k, [v])]
  | (k0, l) :: rest =>
    if k0 = k then (k0, l ++ [v]) :: rest else (k0, l) :: upsertApp k v rest

/-- Grouping of entries by truthy `upload_name` (lines 310-319). -/
def groupByUpload (entries : List WorkflowEntry) :
    List (String × List WorkflowEntry) :=
  entries.foldl
    (fun gs e => if e.upload_name = "" then gs else upsertApp e.upload_name e gs)
    []

/-- All ordered index pairs `i < j` of a list, in the nested-loop order of
the Python `for i ... for j in range(i+1, ...)` idiom. -/
def pairsAsc {α : Type} : List α → List (α × α)
  | [] => []
  | x :: xs => (xs.map (fun y => (x, y))) ++ pairsAsc xs

def upsertOuter (f u : String) (e : WorkflowEntry) :
    List (String × List (String × List WorkflowEntry)) →
      List (String × List (String × List WorkflowEntry))
  | [] => [(f, [(u, [e])])]
  | (f0, ugs) :: rest =>
    if f0 = f then (f0, upsertApp u e ugs) :: rest
    else (f0, ugs) :: upsertOuter f u e rest

/-- Nested grouping `formula -> upload_name -> entries` (lines 459-466);
entries with a falsy formula or upload are skipped. -/
def formulaGroups (entries : List WorkflowEntry) :
    List (String × List (String × List WorkflowEntry)) :=
  entries.foldl
    (fun fgs e =>
      if e.formula = "" ∨ e.upload_name = "" then fgs
      else upsertOuter e.formula e.upload_name e fgs)
    []

/-- One cross-upload edge from the first entries of two upload groups
sharing a formula, if both groups are non-empty (lines 477-486). -/
def mkCrossRel (f : String)
    (pr : (String × List WorkflowEntry) × (String × List WorkflowEntry)) :
    Option Relationship :=
  match pr.1.2, pr.2.2 with
  | e1 :: _, e2 :: _ =>
    some { from_entry_id := e1.entry_id
           to_entry_id := e2.entry_id
           relationship_type := "SAME_MATERIAL"
           upload_cluster := none
           formula := some f
           confidence := 4/5 }
  | _, _ => none

/-- `_find_cross_upload_relationships` (lines 454-488). -/
def find_cross_upload_relationships (entries : List WorkflowEntry) :
    List Relationship :=
  (formulaGroups entries).foldl
    (fun acc fg => acc ++ (pairsAsc fg.2).filterMap (mkCrossRel fg.1)) []

/-- `_infer_workflow_relationships` (lines 303-372): sequential edges per
upload group (groups of at most one entry are skipped), then the
cross-upload edges. -/
def infer_workflow_relationships (entries : List WorkflowEntry) :
    List Relationship :=
  (groupByUpload entries).foldl
    (fun acc g =>
      if g.2.length ≤ 1 then acc
      else acc ++ seqRels g.1 (sort_entries_by_execution_order g.2))
    []
  ++ find_cross_upload_relationships entries

/-! ## Execution-order classifier claims -/

theorem basePriority_mem (e : WorkflowEntry) :
    basePriority e = 10 ∨ basePriority e = 20 ∨ basePriority e = 30 ∨
    basePriority e = 40 ∨ basePriority e = 100 := by
  unfold basePriority
  split_ifs <;> simp

theorem fileNudge_bounds (e : WorkflowEntry) :
    -5 ≤ fileNudge e ∧ fileNudge e ≤ 5 := by
  unfold fileNudge
  split_ifs <;> omega

def noFiles : FileStructure :=
  { total_files := 0, input_files := [], output_files := [],
    script_files := [], has_input_files := false, has_output_files := false }

def c7AnalysisEntry : WorkflowEntry :=
  { entry_id := "a", entry_name := "a", entry_type := "analysis",
    formula := "", upload_name := "u", workflow_metadata := [],
    file_structure := noFiles }

def c7PlainEntry : WorkflowEntry :=
  { entry_id := "b", entry_name := "b", entry_type := "calculation",
    formula := "", upload_name := "u", workflow_metadata := [],
    file_structure := noFiles }

/-- C7 fails: an entry whose `entry_type` matches no stage keyword gets
priority 100, which is not strictly between the earliest bucket (10) and the
post-processing bucket (40); it sorts after an "analysis"-tagged entry. -/
theorem unmatched_priority_counterexample :
    execution_priority c7PlainEntry = 100 ∧
    execution_priority c7AnalysisEntry = 40 ∧
    ¬ execution_priority c7PlainEntry < execution_priority c7AnalysisEntry ∧
    sort_entries_by_execution_order [c7PlainEntry, c7AnalysisEntry] =
      [c7AnalysisEntry, c7PlainEntry] := by
  decide

/-- C7 amended: an entry matching no stage keyword gets base priority 100,
strictly above every keyword bucket (which lie between 10 and 40), so after
the ±5 file nudges every unmatched entry still sorts strictly after every
keyword-matched entry — the default bucket is last, not a neutral middle. -/
theorem unmatched_priority_sorts_last (e m : WorkflowEntry)
    (he : basePriority e = 100) (hm : basePriority m ≠ 100) :
    10 ≤ basePriority m ∧ basePriority m ≤ 40 ∧
    execution_priority m < execution_priority e := by
  have h1 := basePriority_mem m
  have b1 := fileNudge_bounds m
  have b2 := fileNudge_bounds e
  unfold execution_priority
  rcases h1 with h | h | h | h | h <;> omega

/-- Witness for the amended C7 theorem at concrete entries. -/
theorem unmatched_priority_sorts_last_witness :
    (basePriority c7PlainEntry = 100 ∧ basePriority c7AnalysisEntry ≠ 100) ∧
    (10 ≤ basePriority c7AnalysisEntry ∧ basePriority c7AnalysisEntry ≤ 40 ∧
      execution_priority c7AnalysisEntry <
        execution_priority c7PlainEntry) :=
  ⟨⟨by decide, by decide⟩,
    unmatched_priority_sorts_last c7PlainEntry c7AnalysisEntry (by decide)
      (by decide)⟩

/-- C10: for entries in two different stage-keyword buckets, the ±5 file
nudge never makes the earlier-bucket entry's adjusted priority strictly
greater than the later-bucket entry's, because adjacent buckets are 10
apart and each nudge is at most 5. -/
theorem nudges_never_invert_stages (e1 e2 : WorkflowEntry)
    (h1 : basePriority e1 ≠ 100) (h2 : basePriority e2 ≠ 100)
    (hlt : basePriority e1 < basePriority e2) :
    execution_priority e1 ≤ execution_priority e2 := by
  have m1 := basePriority_mem e1
  have m2 := basePriority_mem e2
  have b1 := fileNudge_bounds e1
  have b2 := fileNudge_bounds e2
  unfold execution_priority
  rcases m1 with a | a | a | a | a <;> rcases m2 with b | b | b | b | b <;>
    omega

def c10GeoEntry : WorkflowEntry :=
  { entry_id := "g", entry_name := "g", entry_type := "geometry",
    formula := "", upload_name := "u", workflow_metadata := [],
    file_structure :=
      { total_files := 1, input_files := [], output_files := ["run.out"],
        script_files := [], has_input_files := false,
        has_output_files := true } }

def c10ScfEntry : WorkflowEntry :=
  { entry_id := "s", entry_name := "s", entry_type := "scf",
    formula := "", upload_name := "u", workflow_metadata := [],
    file_structure :=
      { total_files := 1, input_files := ["run.in"], output_files := [],
        script_files := [], has_input_files := true,
        has_output_files := false } }

/-- Witness for C10 at concrete entries; the chosen nudges also exhibit the
tie the nudges can create (10+5 = 20-5). -/
theorem nudges_never_invert_stages_witness :
    (basePriority c10GeoEntry ≠ 100 ∧ basePriority c10ScfEntry ≠ 100 ∧
      basePriority c10GeoEntry < basePriority c10ScfEntry) ∧
    execution_priority c10GeoEntry ≤ execution_priority c10ScfEntry ∧
    execution_priority c10GeoEntry = execution_priority c10ScfEntry :=
  ⟨⟨by decide, by decide, by decide⟩,
    nudges_never_invert_stages c10GeoEntry c10ScfEntry (by decide) (by decide)
      (by decide),
    by decide⟩

/-! ## The 8-entry same-formula scenario -/

def c3entry (i : Nat) : WorkflowEntry :=
  { entry_id := toString i, entry_name := toString i,
    entry_type := "calculation", formula := "W2", upload_name := "u",
    workflow_metadata := [], file_structure := noFiles }

def c3entries : List WorkflowEntry :=
  [c3entry 0, c3entry 1, c3entry 2, c3entry 3, c3entry 4, c3entry 5,
   c3entry 6, c3entry 7]

def c3rel (i j : Nat) : Relationship :=
  { from_entry_id := toString i, to_entry_id := toString j,
    relationship_type := "SIMILAR_CALCULATION", upload_cluster := some "u",
    formula := none, confidence := 4/5 }

def c3expected : List Relationship :=
  [c3rel 0 1, c3rel 1 2, c3rel 2 3, c3rel 3 4, c3rel 4 5, c3rel 5 6,
   c3rel 6 7]

theorem c3_conf (i j : Nat) :
    calculate_relationship_confidence (c3entry i) (c3entry j) = 4/5 := by
  unfold calculate_relationship_confidence
  rw [if_pos (⟨rfl, by simp [c3entry]⟩ :
    (c3entry i).formula = (c3entry j).formula ∧ (c3entry i).formula ≠ "")]
  rw [if_neg (by exact Bool.false_ne_true)]
  rw [if_neg (by exact Bool.false_ne_true)]
  norm_num

theorem c3_pair (i j : Nat) :
    mkSeqRel "u" (c3entry i) (c3entry j) = c3rel i j := by
  unfold mkSeqRel c3rel
  rw [c3_conf]
  rfl

theorem c3_sort_eq :
    sort_entries_by_execution_order c3entries = c3entries := by
  decide

theorem c3_infer_eq :
    infer_workflow_relationships c3entries = c3expected := by
  have hgroups : groupByUpload c3entries = [("u", c3entries)] := by decide
  have hcross : find_cross_upload_relationships c3entries = [] := by decide
  unfold infer_workflow_relationships
  rw [hgroups, hcross, List.append_nil, List.foldl_cons, List.foldl_nil]
  rw [if_neg (by decide)]
  rw [List.nil_append, c3_sort_eq]
  simp only [c3entries, seqRels, c3_pair]
  rfl

/-- C3 fails: on the 8-entry group with shared formula "W2" and default
entry_type "calculation", the sequential edges are not of type
"WORKFLOW_STEP" — the identical-entry-type rule fires first. -/
theorem same_formula_group_counterexample :
    ¬ (∀ r ∈ infer_workflow_relationships c3entries,
        r.relationship_type = "WORKFLOW_STEP") := by
  intro h
  have hm : c3rel 0 1 ∈ infer_workflow_relationships c3entries := by
    rw [c3_infer_eq]
    exact List.mem_cons_self _ _
  have h2 := h (c3rel 0 1) hm
  simp [c3rel] at h2

/-- C3 amended: the classifier returns the 8 identical-signal entries in
their original input order and the sequential sub-algorithm emits exactly 7
edges, each with confidence exactly 0.8, but each of type
"SIMILAR_CALCULATION" (the identical `entry_type` rule precedes the generic
"WORKFLOW_STEP" fallback). -/
theorem same_formula_group_amended :
    sort_entries_by_execution_order c3entries = c3entries ∧
    infer_workflow_relationships c3entries = c3expected ∧
    c3expected.length = 7 ∧
    (∀ r ∈ c3expected,
      r.relationship_type = "SIMILAR_CALCULATION" ∧ r.confidence = 4/5) := by
  refine ⟨c3_sort_eq, c3_infer_eq, rfl, ?_⟩
  intro r hr
  simp only [c3expected, List.mem_cons, List.not_mem_nil, or_false] at hr
  rcases hr with rfl | rfl | rfl | rfl | rfl | rfl | rfl <;> exact ⟨rfl, rfl⟩

/-! ## Cross-upload relationship lemmas -/

theorem foldl_append_eq_flatMap {α β : Type} (f : α → List β) (l : List α)
    (init : List β) :
    l.foldl (fun acc a => acc ++ f a) init = init ++ l.flatMap f := by
  induction l generalizing init with
  | nil => simp
  | cons a rest ih =>
    simp only [List.foldl_cons, List.flatMap_cons, ih, List.append_assoc]

theorem mem_pairsAsc {α : Type} (l : List α) (pr : α × α)
    (h : pr ∈ pairsAsc l) : pr.1 ∈ l ∧ pr.2 ∈ l := by
  induction l with
  | nil => simp [pairsAsc] at h
  | cons x xs ih =>
    simp only [pairsAsc, List.mem_append, List.mem_map] at h
    rcases h with ⟨y, hy, rfl⟩ | h
    · exact ⟨List.mem_cons_self x xs, List.mem_cons_of_mem x hy⟩
    · exact ⟨List.mem_cons_of_mem x (ih h).1, List.mem_cons_of_mem x (ih h).2⟩

theorem countP_key_nodup {κ β : Type} [DecidableEq κ] (l : List (κ × β))
    (hn : (l.map Prod.fst).Nodup) (x : κ) (hx : x ∈ l.map Prod.fst) :
    l.countP (fun y => decide (y.1 = x)) = 1 := by
  induction l with
  | nil => simp at hx
  | cons a rest ih =>
    simp only [List.map_cons, List.nodup_cons] at hn
    simp only [List.map_cons, List.mem_cons] at hx
    rw [List.countP_cons]
    by_cases hax : a.1 = x
    · have h0 : rest.countP (fun y => decide (y.1 = x)) = 0 := by
        rw [List.countP_eq_zero]
        intro y hy hc
        simp only [decide_eq_true_eq] at hc
        exact hn.1 (hax ▸ hc ▸ List.mem_map_of_mem Prod.fst hy)
      simp [h0, hax]
    · rcases hx with hx1 | hx2
      · exact absurd hx1.symm hax
      · simp [hax, ih hn.2 hx2]

theorem countP_pairsAsc_keys {κ β : Type} [DecidableEq κ]
    (l : List (κ × β)) (hn : (l.map Prod.fst).Nodup) (u v : κ) (huv : u ≠ v)
    (hu : u ∈ l.map Prod.fst) (hv : v ∈ l.map Prod.fst) :
    (pairsAsc l).countP
      (fun pr => decide ((pr.1.1 = u ∧ pr.2.1 = v) ∨
        (pr.1.1 = v ∧ pr.2.1 = u))) = 1 := by
  induction l with
  | nil => simp at hu
  | cons a rest ih =>
    simp only [List.map_cons, List.nodup_cons] at hn
    simp only [List.map_cons, List.mem_cons] at hu hv
    rw [show pairsAsc (a :: rest) =
      (rest.map (fun y => (a, y))) ++ pairsAsc rest from rfl]
    rw [List.countP_append, List.countP_map]
    by_cases hau : a.1 = u
    · have hvrest : v ∈ rest.map Prod.fst := by
        rcases hv with h | h
        · exact absurd (hau.symm.trans h.symm) huv
        · exact h
      have h1 : rest.countP
          ((fun pr => decide ((pr.1.1 = u ∧ pr.2.1 = v) ∨
            (pr.1.1 = v ∧ pr.2.1 = u))) ∘ (fun y => (a, y))) = 1 := by
        rw [List.countP_congr (q := fun y => decide (y.1 = v))]
        · exact countP_key_nodup rest hn.2 v hvrest
        · intro y hy
          simp only [Function.comp_apply, decide_eq_true_eq, hau]
          constructor
          · rintro (⟨_, h⟩ | ⟨h, _⟩)
            · exact h
            · exact absurd (hau ▸ h) huv
          · exact fun h => Or.inl ⟨trivial, h⟩
      have h2 : (pairsAsc rest).countP
          (fun pr => decide ((pr.1.1 = u ∧ pr.2.1 = v) ∨
            (pr.1.1 = v ∧ pr.2.1 = u))) = 0 := by
        rw [List.countP_eq_zero]
        intro pr hpr hc
        have hm := mem_pairsAsc rest pr hpr
        simp only [decide_eq_true_eq] at hc
        rcases hc with ⟨h, _⟩ | ⟨_, h⟩
        · exact hn.1 (hau ▸ h ▸ List.mem_map_of_mem Prod.fst hm.1)
        · exact hn.1 (hau ▸ h ▸ List.mem_map_of_mem Prod.fst hm.2)
      omega
    · by_cases hav : a.1 = v
      · have hurest : u ∈ rest.map Prod.fst := by
          rcases hu with h | h
          · exact absurd (hav.symm.trans h.symm) huv.symm
          · exact h
        have h1 : rest.countP
            ((fun pr => decide ((pr.1.1 = u ∧ pr.2.1 = v) ∨
              (pr.1.1 = v ∧ pr.2.1 = u))) ∘ (fun y => (a, y))) = 1 := by
          rw [List.countP_congr (q := fun y => decide (y.1 = u))]
          · exact countP_key_nodup rest hn.2 u hurest
          · intro y hy
            simp only [Function.comp_apply, decide_eq_true_eq, hav]
            constructor
            · rintro (⟨h, _⟩ | ⟨_, h⟩)
              · exact absurd (hav ▸ h) huv.symm
              · exact h
            · exact fun h => Or.inr ⟨trivial, h⟩
        have h2 : (pairsAsc rest).countP
            (fun pr => decide ((pr.1.1 = u ∧ pr.2.1 = v) ∨
              (pr.1.1 = v ∧ pr.2.1 = u))) = 0 := by
          rw [List.countP_eq_zero]
          intro pr hpr hc
          have hm := mem_pairsAsc rest pr hpr
          simp only [decide_eq_true_eq] at hc
          rcases hc with ⟨_, h⟩ | ⟨h, _⟩
          · exact hn.1 (hav ▸ h ▸ List.mem_map_of_mem Prod.fst hm.2)
          · exact hn.1 (hav ▸ h ▸ List.mem_map_of_mem Prod.fst hm.1)
        omega
      · have hurest : u ∈ rest.map Prod.fst := by
          rcases hu with h | h
          · exact absurd h.symm hau
          · exact h
        have hvrest : v ∈ rest.map Prod.fst := by
          rcases hv with h | h
          · exact absurd h.symm hav
          · exact h
        have h1 : rest.countP
            ((fun pr => decide ((pr.1.1 = u ∧ pr.2.1 = v) ∨
              (pr.1.1 = v ∧ pr.2.1 = u))) ∘ (fun y => (a, y))) = 0 := by
          rw [List.countP_eq_zero]
          intro y hy hc
          simp only [Function.comp_apply, decide_eq_true_eq] at hc
          rcases hc with ⟨h, _⟩ | ⟨h, _⟩
          · exact hau h
          · exact hav h
        rw [h1, ih hn.2 hurest hvrest]

theorem upsertApp_map_fst {κ β : Type} [DecidableEq κ] (k : κ) (v : β)
    (l : List (κ × List β)) :
    (upsertApp k v l).map Prod.fst =
      if k ∈ l.map Prod.fst then l.map Prod.fst
      else l.map Prod.fst ++ [k] := by
  induction l with
  | nil => simp [upsertApp]
  | cons a rest ih =>
    obtain ⟨k0, l0⟩ := a
    rw [upsertApp]
    by_cases hk : k0 = k
    · subst hk
      simp
    · rw [if_neg hk]
      simp only [List.map_cons, List.mem_cons]
      rw [ih]
      by_cases hmem : k ∈ rest.map Prod.fst
      · simp [hmem]
      · have hn2 : ¬ (k = k0 ∨ k ∈ rest.map Prod.fst) := by
          rintro (h2 | h2)
          · exact hk h2.symm
          · exact hmem h2
        rw [if_neg hmem, if_neg hn2]
        rfl

theorem upsertApp_keys_nodup {κ β : Type} [DecidableEq κ] (k : κ) (v : β)
    (l : List (κ × List β)) (hn : (l.map Prod.fst).Nodup) :
    ((upsertApp k v l).map Prod.fst).Nodup := by
  rw [upsertApp_map_fst]
  split
  · exact hn
  · rename_i hmem
    simp [List.nodup_append, hn, hmem]

theorem upsertApp_snd_ne_nil {κ β : Type} [DecidableEq κ] (k : κ) (v : β)
    (l : List (κ × List β)) (h : ∀ g ∈ l, g.2 ≠ []) :
    ∀ g ∈ upsertApp k v l, g.2 ≠ [] := by
  induction l with
  | nil =>
    intro g hg
    rcases List.mem_singleton.mp hg with rfl
    simp
  | cons a rest ih =>
    obtain ⟨k0, l0⟩ := a
    by_cases hk : k0 = k
    · rw [upsertApp, if_pos hk]
      intro g hg
      rcases List.mem_cons.mp hg with rfl | hmem
      · simp
      · exact h g (List.mem_cons_of_mem _ hmem)
    · rw [upsertApp, if_neg hk]
      intro g hg
      rcases List.mem_cons.mp hg with rfl | hmem
      · exact h (k0, l0) (List.mem_cons_self _ _)
      · exact ih (fun q hq => h q (List.mem_cons_of_mem _ hq)) g hmem

/-- Well-formedness of the nested formula grouping: within each formula the
upload keys are distinct and every upload group is non-empty. -/
def GroupsWellFormed
    (fgs : List (String × List (String × List WorkflowEntry))) : Prop :=
  ∀ fg ∈ fgs, ((fg.2.map Prod.fst).Nodup ∧ ∀ g ∈ fg.2, g.2 ≠ [])

theorem upsertOuter_wf (f u : String) (e : WorkflowEntry)
    (fgs : List (String × List (String × List WorkflowEntry)))
    (h : GroupsWellFormed fgs) : GroupsWellFormed (upsertOuter f u e fgs) := by
  induction fgs with
  | nil =>
    intro fg hfg
    rcases List.mem_singleton.mp hfg with rfl
    constructor
    · simp
    · intro g hg
      rcases List.mem_singleton.mp hg with rfl
      simp
  | cons a rest ih =>
    obtain ⟨f0, ugs⟩ := a
    rw [upsertOuter]
    split
    · intro fg hfg
      rcases List.mem_cons.mp hfg with rfl | hmem
      · have ha := h (f0, ugs) (List.mem_cons_self _ _)
        exact ⟨upsertApp_keys_nodup u e ugs ha.1,
          upsertApp_snd_ne_nil u e ugs ha.2⟩
      · exact h fg (List.mem_cons_of_mem _ hmem)
    · intro fg hfg
      rcases List.mem_cons.mp hfg with rfl | hmem
      · exact h (f0, ugs) (List.mem_cons_self _ _)
      · exact ih (fun q hq => h q (List.mem_cons_of_mem _ hq)) fg hmem

theorem formulaGroups_wf (entries : List WorkflowEntry) :
    GroupsWellFormed (formulaGroups entries) := by
  rw [formulaGroups]
  have main : ∀ (es : List WorkflowEntry)
      (acc : List (String × List (String × List WorkflowEntry))),
      GroupsWellFormed acc →
      GroupsWellFormed (es.foldl
        (fun fgs e =>
          if e.formula = "" ∨ e.upload_name = "" then fgs
          else upsertOuter e.formula e.upload_name e fgs) acc) := by
    intro es
    induction es with
    | nil => exact fun acc h => h
    | cons e rest ih =>
      intro acc hacc
      rw [List.foldl_cons]
      split
      · exact ih acc hacc
      · exact ih _ (upsertOuter_wf e.formula e.upload_name e acc hacc)
  exact main entries [] (fun fg hfg => absurd hfg (List.not_mem_nil fg))

theorem mkCrossRel_fields (f : String)
    (pr : (String × List WorkflowEntry) × (String × List WorkflowEntry))
    (r : Relationship) (h : mkCrossRel f pr = some r) :
    r.relationship_type = "SAME_MATERIAL" ∧ r.confidence = 4/5 ∧
    r.formula = some f := by
  rw [mkCrossRel] at h
  split at h
  · rcases Option.some.inj h with rfl
    exact ⟨rfl, rfl, rfl⟩
  · cases h

def na3Entry1 : WorkflowEntry :=
  { entry_id := "n1", entry_name := "n1", entry_type := "calculation",
    formula := "Na3", upload_name := "u1", workflow_metadata := [],
    file_structure := noFiles }

def na3Entry2 : WorkflowEntry :=
  { entry_id := "n2", entry_name := "n2", entry_type := "calculation",
    formula := "Na3", upload_name := "u2", workflow_metadata := [],
    file_structure := noFiles }

def na3Entries : List WorkflowEntry := [na3Entry1, na3Entry2]

def na3Rel : Relationship :=
  { from_entry_id := "n1", to_entry_id := "n2",
    relationship_type := "SAME_MATERIAL", upload_cluster := none,
    formula := some "Na3", confidence := 4/5 }

/-- C9: the cross-group sub-algorithm emits its edges by enumerating, for
each shared formula, each unordered pair of distinct upload groups exactly
once (the i < j nested loop); every emitted edge has type "SAME_MATERIAL"
and confidence exactly 0.8; each enumerated pair contributes exactly one
edge linking the first (representative) entry of each group, never a full
cross-product; and the two-group "Na3" scenario yields exactly one such
edge. -/
theorem cross_upload_same_material :
    (∀ entries : List WorkflowEntry,
      find_cross_upload_relationships entries =
        (formulaGroups entries).flatMap
          (fun fg => (pairsAsc fg.2).filterMap (mkCrossRel fg.1))) ∧
    (∀ (entries : List WorkflowEntry) (r : Relationship),
      r ∈ find_cross_upload_relationships entries →
      r.relationship_type = "SAME_MATERIAL" ∧ r.confidence = 4/5) ∧
    (∀ (entries : List WorkflowEntry)
      (fg : String × List (String × List WorkflowEntry)),
      fg ∈ formulaGroups entries →
      ∀ u v : String, u ≠ v →
      u ∈ fg.2.map Prod.fst → v ∈ fg.2.map Prod.fst →
      (pairsAsc fg.2).countP
        (fun pr => decide ((pr.1.1 = u ∧ pr.2.1 = v) ∨
          (pr.1.1 = v ∧ pr.2.1 = u))) = 1) ∧
    (∀ (entries : List WorkflowEntry)
      (fg : String × List (String × List WorkflowEntry)),
      fg ∈ formulaGroups entries →
      ∀ pr ∈ pairsAsc fg.2,
        (mkCrossRel fg.1 pr).map Relationship.from_entry_id =
          pr.1.2.head?.map WorkflowEntry.entry_id ∧
        (mkCrossRel fg.1 pr).map Relationship.to_entry_id =
          pr.2.2.head?.map WorkflowEntry.entry_id ∧
        (mkCrossRel fg.1 pr).isSome = true) ∧
    find_cross_upload_relationships na3Entries = [na3Rel] := by
  have hflat : ∀ entries : List WorkflowEntry,
      find_cross_upload_relationships entries =
        (formulaGroups entries).flatMap
          (fun fg => (pairsAsc fg.2).filterMap (mkCrossRel fg.1)) := by
    intro entries
    rw [find_cross_upload_relationships, foldl_append_eq_flatMap,
      List.nil_append]
  refine ⟨hflat, ?_, ?_, ?_, ?_⟩
  · intro entries r hr
    rw [hflat] at hr
    rcases List.mem_flatMap.mp hr with ⟨fg, _, hmem⟩
    rcases List.mem_filterMap.mp hmem with ⟨pr, _, hsome⟩
    exact ⟨(mkCrossRel_fields fg.1 pr r hsome).1,
      (mkCrossRel_fields fg.1 pr r hsome).2.1⟩
  · intro entries fg hfg u v huv hu hv
    exact countP_pairsAsc_keys fg.2 ((formulaGroups_wf entries) fg hfg).1
      u v huv hu hv
  · intro entries fg hfg pr hpr
    have hwf := (formulaGroups_wf entries) fg hfg
    have hm := mem_pairsAsc fg.2 pr hpr
    have h1 : pr.1.2 ≠ [] := hwf.2 pr.1 hm.1
    have h2 : pr.2.2 ≠ [] := hwf.2 pr.2 hm.2
    cases hc1 : pr.1.2 with
    | nil => exact absurd hc1 h1
    | cons e1 t1 =>
      cases hc2 : pr.2.2 with
      | nil => exact absurd hc2 h2
      | cons e2 t2 =>
        rw [mkCrossRel, hc1, hc2]
        exact ⟨rfl, rfl, rfl⟩
  · rfl

/-- Witness for the hypothesis-bearing conjuncts of the C9 theorem on the
concrete "Na3" scenario. -/
theorem cross_upload_same_material_witness :
    (na3Rel.relationship_type = "SAME_MATERIAL" ∧
      na3Rel.confidence = 4/5) ∧
    (pairsAsc [("u1", [na3Entry1]), ("u2", [na3Entry2])]).countP
      (fun pr => decide ((pr.1.1 = "u1" ∧ pr.2.1 = "u2") ∨
        (pr.1.1 = "u2" ∧ pr.2.1 = "u1"))) = 1 :=
  ⟨cross_upload_same_material.2.1 na3Entries na3Rel
      (by rw [cross_upload_same_material.2.2.2.2]
          exact List.mem_singleton.mpr rfl),
    cross_upload_same_material.2.2.1 na3Entries
      ("Na3", [("u1", [na3Entry1]), ("u2", [na3Entry2])]) (by decide)
      "u1" "u2" (by decide) (by decide) (by decide)⟩

/-! ## Graph persistence (`_create_dataset_graph`,
`_create_workflow_relationships`) -/

/-- The properties written to an `Entry` node (entry query, lines 264-293);
the `has_*` booleans come from the lengths of the file lists. -/
structure EntryNode where
  entry_id : String
  entry_name : String
  entry_type : String
  formula : String
  upload_name : String
  total_files : Nat
  has_input_files : Bool
  has_output_files : Bool
  has_scripts : Bool
deriving DecidableEq, Repr

def mkEntryNode (e : WorkflowEntry) : EntryNode :=
  { entry_id := e.entry_id, entry_name := e.entry_name,
    entry_type := e.entry_type, formula := e.formula,
    upload_name := e.upload_name,
    total_files := e.file_structure.total_files,
    has_input_files := decide (0 < e.file_structure.input_files.length),
    has_output_files := decide (0 < e.file_structure.output_files.length),
    has_scripts := decide (0 < e.file_structure.script_files.length) }

/-- The relevant state of the graph store: Dataset nodes (keyed by
dataset_id, carrying entry_count), Entry nodes, CONTAINS edges and typed
relationship edges, in creation order. -/
structure GraphStore where
  datasets : List (String × Nat)
  entryNodes : List EntryNode
  containsEdges : List (String × String)
  relEdges : List Relationship
deriving DecidableEq, Repr

def emptyStore : GraphStore :=
  { datasets := [], entryNodes := [], containsEdges := [], relEdges := [] }

/-- `MERGE (d:Dataset {dataset_id: $dataset_id}) SET d.entry_count = ...`:
update the node if the key exists, otherwise create it. -/
def dsUpsert (l : List (String × Nat)) (id : String) (count : Nat) :
    List (String × Nat) :=
  if l.any (fun d => d.1 == id) then
    l.map (fun d => if d.1 = id then (d.1, count) else d)
  else l ++ [(id, count)]

def upsertDataset (st : GraphStore) (id : String) (count : Nat) :
    GraphStore :=
  { st with datasets := dsUpsert st.datasets id count }

/-- `CREATE (e:Entry {...}) ... CREATE (d)-[:CONTAINS]->(e)`:
an unconditional create, one node and one edge appended per entry. -/
def addEntryNode (s : GraphStore) (dataset_id : String) (e : WorkflowEntry) :
    GraphStore :=
  { s with entryNodes := s.entryNodes ++ [mkEntryNode e],
           containsEdges := s.containsEdges ++ [(dataset_id, e.entry_id)] }

/-- `_create_dataset_graph` (lines 239-301), write-success path: MERGE the
Dataset node, then CREATE one Entry node per entry. -/
def create_dataset_graph (st : GraphStore) (dataset_id : String)
    (entries : List WorkflowEntry) : GraphStore :=
  entries.foldl (fun s e => addEntryNode s dataset_id e)
    (upsertDataset st dataset_id entries.length)

theorem foldl_addEntryNode_datasets (entries : List WorkflowEntry)
    (dataset_id : String) (s : GraphStore) :
    (entries.foldl (fun s e => addEntryNode s dataset_id e) s).datasets =
      s.datasets := by
  induction entries generalizing s with
  | nil => rfl
  | cons e rest ih =>
    rw [List.foldl_cons, ih]
    rfl

theorem foldl_addEntryNode_nodes (entries : List WorkflowEntry)
    (dataset_id : String) (s : GraphStore) :
    (entries.foldl (fun s e => addEntryNode s dataset_id e) s).entryNodes =
      s.entryNodes ++ entries.map mkEntryNode := by
  induction entries generalizing s with
  | nil => simp
  | cons e rest ih =>
    rw [List.foldl_cons, ih]
    simp [addEntryNode]

theorem dsUpsert_key_val (l : List (String × Nat)) (id : String)
    (count : Nat) :
    ∀ d ∈ dsUpsert l id count, d.1 = id → d = (id, count) := by
  rw [dsUpsert]
  split
  · intro d hd hid
    rcases List.mem_map.mp hd with ⟨d0, hd0, rfl⟩
    by_cases h0 : d0.1 = id
    · rw [if_pos h0, h0]
    · rw [if_neg h0] at hid ⊢
      exact absurd hid h0
  · rename_i hany
    intro d hd hid
    rcases List.mem_append.mp hd with hmem | hmem
    · exfalso
      apply hany
      rw [List.any_eq_true]
      exact ⟨d, hmem, by simp [hid]⟩
    · exact List.mem_singleton.mp hmem

theorem dsUpsert_mem_key (l : List (String × Nat)) (id : String)
    (count : Nat) :
    (dsUpsert l id count).any (fun d => d.1 == id) = true := by
  rw [dsUpsert]
  split
  · rename_i hany
    rw [List.any_eq_true] at hany ⊢
    rcases hany with ⟨d, hd, hdid⟩
    refine ⟨if d.1 = id then (d.1, count) else d,
      List.mem_map_of_mem _ hd, ?_⟩
    have hdi : d.1 = id := by simpa using hdid
    simp [hdi]
  · rw [List.any_eq_true]
    exact ⟨(id, count),
      List.mem_append_right _ (List.mem_singleton.mpr rfl), by simp⟩

theorem dsUpsert_idem (l : List (String × Nat)) (id : String) (count : Nat) :
    dsUpsert (dsUpsert l id count) id count = dsUpsert l id count := by
  have hany := dsUpsert_mem_key l id count
  rw [show dsUpsert (dsUpsert l id count) id count =
    if (dsUpsert l id count).any (fun d => d.1 == id) then
      (dsUpsert l id count).map
        (fun d => if d.1 = id then (d.1, count) else d)
    else dsUpsert l id count ++ [(id, count)] from rfl]
  rw [if_pos hany]
  have hfix : ∀ d ∈ dsUpsert l id count,
      (if d.1 = id then (d.1, count) else d) = d := by
    intro d hd
    by_cases hdi : d.1 = id
    · rw [if_pos hdi, dsUpsert_key_val l id count d hd hdi]
    · rw [if_neg hdi]
  calc (dsUpsert l id count).map
        (fun d => if d.1 = id then (d.1, count) else d)
      = (dsUpsert l id count).map (fun d => d) :=
        List.map_congr_left (fun d hd => hfix d hd)
    _ = dsUpsert l id count := List.map_id' _

def c1Entry : WorkflowEntry :=
  { entry_id := "x1", entry_name := "x1", entry_type := "calculation",
    formula := "W2", upload_name := "u", workflow_metadata := [],
    file_structure := noFiles }

/-- C1 fails: Entry nodes are written with `CREATE`, not `MERGE`, so running
the node-persistence step twice on the same one-entry set leaves two Entry
nodes (two nodes with the already-present entry id) instead of one. -/
theorem node_persistence_counterexample :
    (create_dataset_graph emptyStore "d" [c1Entry]).entryNodes.length = 1 ∧
    (create_dataset_graph (create_dataset_graph emptyStore "d" [c1Entry])
      "d" [c1Entry]).entryNodes.length = 2 ∧
    ¬ ((create_dataset_graph (create_dataset_graph emptyStore "d" [c1Entry])
        "d" [c1Entry]).entryNodes.length =
      (create_dataset_graph emptyStore "d" [c1Entry]).entryNodes.length) ∧
    (create_dataset_graph (create_dataset_graph emptyStore "d" [c1Entry])
      "d" [c1Entry]).entryNodes.countP (fun n => n.entry_id == "x1") = 2 := by
  decide

/-- C1 amended: the Dataset upsert is idempotent (running the step twice
yields the same Dataset nodes as running it once), but Entry writes are
unconditional creates: each run appends one Entry node per entry, so the
second run doubles the added Entry-node count and adds one more node per
already-present entry id. -/
theorem node_persistence_counts (st : GraphStore) (ds : String)
    (es : List WorkflowEntry) (k : String) :
    (create_dataset_graph (create_dataset_graph st ds es) ds es).datasets =
      (create_dataset_graph st ds es).datasets ∧
    (create_dataset_graph st ds es).entryNodes.length =
      st.entryNodes.length + es.length ∧
    (create_dataset_graph (create_dataset_graph st ds es) ds
        es).entryNodes.length =
      st.entryNodes.length + 2 * es.length ∧
    (create_dataset_graph st ds es).entryNodes.countP
        (fun n => n.entry_id == k) =
      st.entryNodes.countP (fun n => n.entry_id == k) +
        es.countP (fun e => e.entry_id == k) := by
  have hds : ∀ st : GraphStore,
      (create_dataset_graph st ds es).datasets =
        dsUpsert st.datasets ds es.length := by
    intro st
    rw [create_dataset_graph, foldl_addEntryNode_datasets]
    rfl
  have hnodes : ∀ st : GraphStore,
      (create_dataset_graph st ds es).entryNodes =
        st.entryNodes ++ es.map mkEntryNode := by
    intro st
    rw [create_dataset_graph, foldl_addEntryNode_nodes]
    rfl
  refine ⟨?_, ?_, ?_, ?_⟩
  · rw [hds, hds]
    exact dsUpsert_idem st.datasets ds es.length
  · rw [hnodes]
    simp
  · rw [hnodes, hnodes]
    simp
    omega
  · rw [hnodes, List.countP_append, List.countP_map]
    rfl

/-! ## Failure handling in the persistence layer -/

/-- The per-entry `CREATE` loop of `_create_dataset_graph` under a write
oracle: a failing entry write prints and then re-raises (lines 298-301), so
the first failure aborts the whole loop with an exception. -/
def create_entry_nodes_fallible (failEntry : String → Bool)
    (dataset_id : String) :
    List WorkflowEntry → GraphStore → Except Unit GraphStore
  | [], s => .ok s
  | e :: rest, s =>
    if failEntry e.entry_id then .error ()
    else create_entry_nodes_fallible failEntry dataset_id rest
      (addEntryNode s dataset_id e)

/-- `_create_dataset_graph` under write oracles: a failing Dataset write
also re-raises (lines 256-258). -/
def create_dataset_graph_fallible (failDataset : Bool)
    (failEntry : String → Bool) (st : GraphStore) (dataset_id : String)
    (entries : List WorkflowEntry) : Except Unit GraphStore :=
  if failDataset then .error ()
  else create_entry_nodes_fallible failEntry dataset_id entries
    (upsertDataset st dataset_id entries.length)

/-- `_create_workflow_relationships` (lines 490-516) under a write oracle:
a failing edge write is caught and skipped and the loop continues. -/
def create_workflow_relationships_fallible (failRel : Relationship → Bool)
    (rels : List Relationship) (st : GraphStore) : GraphStore :=
  rels.foldl
    (fun s r => if failRel r then s
      else { s with relEdges := s.relEdges ++ [r] }) st

/-- The persistence phase of `reconstruct_dataset_workflow` (lines 167-175):
node creation, then relationship inference and creation; an exception from
node creation propagates out (there is no surrounding try), while the
summary counts relationships only after both steps succeed. -/
def reconstruct_persist_phase (failDataset : Bool)
    (failEntry : String → Bool) (failRel : Relationship → Bool)
    (st : GraphStore) (dataset_id : String)
    (entries : List WorkflowEntry) : Except Unit (GraphStore × Nat) :=
  match create_dataset_graph_fallible failDataset failEntry st dataset_id
    entries with
  | .error e => .error e
  | .ok st1 =>
    let rels := infer_workflow_relationships entries
    .ok (create_workflow_relationships_fallible failRel rels st1,
      rels.length)

/-- C2 fails: a single failing Entry-node write is re-raised, not skipped —
the persistence phase returns an exception instead of a summary, although
no configuration error is involved. -/
theorem persist_failure_counterexample :
    reconstruct_persist_phase false (fun i => i == "x1") (fun _ => false)
      emptyStore "d" [c1Entry] = .error () := rfl

/-- C2 amended: a single edge-write failure is caught and skipped and all
remaining edges are still written (the surviving edges are exactly the
non-failing ones, in order), but a single node-write failure is re-raised:
it aborts the node loop and propagates out of the top-level operation, which
then raises instead of returning its summary. -/
theorem persist_failure_handling :
    (∀ (failRel : Relationship → Bool) (rels : List Relationship)
      (st : GraphStore),
      (create_workflow_relationships_fallible failRel rels st).relEdges =
        st.relEdges ++ rels.filter (fun r => !failRel r)) ∧
    (∀ (failEntry : String → Bool) (ds : String) (es : List WorkflowEntry)
      (st : GraphStore), (∃ e ∈ es, failEntry e.entry_id) →
      create_dataset_graph_fallible false failEntry st ds es = .error ()) ∧
    (∀ (failEntry : String → Bool) (failRel : Relationship → Bool)
      (ds : String) (es : List WorkflowEntry) (st : GraphStore),
      (∃ e ∈ es, failEntry e.entry_id) →
      reconstruct_persist_phase false failEntry failRel st ds es =
        .error ()) := by
  have hrel : ∀ (failRel : Relationship → Bool) (rels : List Relationship)
      (st : GraphStore),
      (create_workflow_relationships_fallible failRel rels st).relEdges =
        st.relEdges ++ rels.filter (fun r => !failRel r) := by
    intro failRel rels
    induction rels with
    | nil => intro st; simp [create_workflow_relationships_fallible]
    | cons r rest ih =>
      intro st
      by_cases hr : failRel r
      · rw [show create_workflow_relationships_fallible failRel (r :: rest)
            st = create_workflow_relationships_fallible failRel rest st
          from by
            rw [create_workflow_relationships_fallible,
              create_workflow_relationships_fallible, List.foldl_cons,
              if_pos hr]]
        rw [ih st, List.filter_cons]
        simp [hr]
      · rw [show create_workflow_relationships_fallible failRel (r :: rest)
            st = create_workflow_relationships_fallible failRel rest
              { st with relEdges := st.relEdges ++ [r] } from by
            rw [create_workflow_relationships_fallible,
              create_workflow_relationships_fallible, List.foldl_cons,
              if_neg hr]]
        rw [ih, List.filter_cons]
        simp [hr]
  have hnode : ∀ (failEntry : String → Bool) (ds : String)
      (es : List WorkflowEntry) (st0 : GraphStore),
      (∃ e ∈ es, failEntry e.entry_id) →
      create_entry_nodes_fallible failEntry ds es st0 = .error () := by
    intro failEntry ds es
    induction es with
    | nil =>
      intro st0 h
      rcases h with ⟨e, he, _⟩
      exact absurd he (List.not_mem_nil e)
    | cons e rest ih =>
      intro st0 h
      rw [create_entry_nodes_fallible]
      by_cases hf : failEntry e.entry_id
      · rw [if_pos hf]
      · rw [if_neg hf]
        apply ih
        rcases h with ⟨e2, he2, hf2⟩
        rcases List.mem_cons.mp he2 with rfl | hmem
        · exact absurd hf2 (by simp [hf])
        · exact ⟨e2, hmem, hf2⟩
  refine ⟨hrel, ?_, ?_⟩
  · intro failEntry ds es st h
    rw [create_dataset_graph_fallible, if_neg (by simp)]
    exact hnode failEntry ds es _ h
  · intro failEntry failRel ds es st h
    rw [reconstruct_persist_phase]
    rw [create_dataset_graph_fallible, if_neg (by simp)]
    rw [hnode failEntry ds es _ h]

/-- Witness for the amended C2 theorem at concrete oracles and inputs. -/
theorem persist_failure_handling_witness :
    ((create_workflow_relationships_fallible (fun _ => false) [na3Rel]
        emptyStore).relEdges =
      emptyStore.relEdges ++ [na3Rel].filter (fun _ => !false)) ∧
    ((∃ e ∈ [c1Entry], (fun i => i == "x1") e.entry_id) ∧
      reconstruct_persist_phase false (fun i => i == "x1") (fun _ => false)
        emptyStore "d" [c1Entry] = .error ()) :=
  ⟨persist_failure_handling.1 (fun _ => false) [na3Rel] emptyStore,
    ⟨⟨c1Entry, List.mem_singleton.mpr rfl, by decide⟩,
      persist_failure_handling.2.2 (fun i => i == "x1") (fun _ => false)
        "d" [c1Entry] emptyStore
        ⟨c1Entry, List.mem_singleton.mpr rfl, by decide⟩⟩⟩

/-! ## Paginated extractor (`NomadClient.get_upload_entries` /
`get_dataset_entries`, nomad_server_improved.py lines 117-225; both loops
have identical control flow) -/

/-- One page of the remote response: the `data` records and the
`pagination.next_page_after_value` cursor. -/
structure Page where
  data : List String
  next_page_after_value : Option String
deriving DecidableEq, Repr

/-- Whether the Python truthiness test on the optional max-entries cap
passes (`max_entries and len(all_entries) >= max_entries`): `None` and `0`
are falsy. -/
def capReached (max_entries : Option Nat) (accLen : Nat) : Bool :=
  match max_entries with
  | some m => decide (m ≠ 0) && decide (m ≤ accLen)
  | none => false

/-- The `while True` pagination loop, with the service modelled as a map
from the request index to a response or a request failure; `fuel` bounds
the number of iterations the embedding can unfold (the Python loop itself
has no such bound). Returns the accumulated records and `pages_fetched`.
Stop conditions, in code order: request failure (break with partial
result), short page or cap reached (break), falsy continuation cursor
(break). -/
def get_upload_entries_loop (service : Nat → Except Unit Page)
    (page_size : Nat) (max_entries : Option Nat) :
    Nat → List String → Nat → List String × Nat
  | 0, acc, pages => (acc, pages)
  | fuel + 1, acc, pages =>
    match service pages with
    | .error _ => (acc, pages)
    | .ok pg =>
      if pg.data.length < page_size ||
          capReached max_entries (acc ++ pg.data).length then
        (acc ++ pg.data, pages + 1)
      else
        match pg.next_page_after_value with
        | none => (acc ++ pg.data, pages + 1)
        | some cur =>
          if cur = "" then (acc ++ pg.data, pages + 1)
          else get_upload_entries_loop service page_size max_entries fuel
            (acc ++ pg.data) (pages + 1)

/-- `get_upload_entries`: run the loop from an empty accumulator and apply
the final truthy-cap trim `all_entries[:max_entries]`. -/
def get_upload_entries (service : Nat → Except Unit Page)
    (page_size : Nat) (max_entries : Option Nat) (fuel : Nat) :
    List String × Nat :=
  let r := get_upload_entries_loop service page_size max_entries fuel [] 0
  (match max_entries with
   | some m => if m ≠ 0 then r.1.take m else r.1
   | none => r.1, r.2)

/-- A misbehaving service: every page is full and carries a fresh non-empty
continuation cursor, and no request ever fails. -/
def fullPageService (page_size : Nat) : Nat → Except Unit Page :=
  fun i => .ok { data := List.replicate page_size ("rec" ++ toString i),
                 next_page_after_value := some "cursor" }

theorem fullPageService_loop_pages (fuel : Nat) :
    ∀ (acc : List String) (pages : Nat),
    (get_upload_entries_loop (fullPageService 100) 100 none fuel acc
      pages).2 = pages + fuel := by
  induction fuel with
  | zero => intro acc pages; rfl
  | succ n ih =>
    intro acc pages
    rw [get_upload_entries_loop]
    simp only [fullPageService, capReached, List.length_replicate,
      lt_irrefl, Bool.or_false, String.reduceEq]
    rw [if_neg (by simp), if_neg not_false, ih]
    omega

theorem short_page_stop (service : Nat → Except Unit Page)
    (page_size : Nat) (max_entries : Option Nat) (fuel : Nat) (pg : Page)
    (hs : service 0 = .ok pg) (hshort : pg.data.length < page_size) :
    get_upload_entries_loop service page_size max_entries (fuel + 1) []
      0 = (pg.data, 1) := by
  rw [get_upload_entries_loop, hs]
  simp only [Bool.or_eq_true, decide_eq_true_eq]
  rw [if_pos (Or.inl hshort)]
  simp

/-- C4 fails: there is no hard page-count ceiling. Against a service that
always returns full pages with fresh cursors, with no cap set, the loop
fetches as many pages as it is allowed to iterate, exceeding every proposed
bound. -/
theorem page_ceiling_counterexample :
    ¬ ∃ B : Nat, ∀ fuel : Nat,
      (get_upload_entries_loop (fullPageService 100) 100 none fuel []
        0).2 ≤ B := by
  rintro ⟨B, hB⟩
  have h := hB (B + 1)
  rw [fullPageService_loop_pages (B + 1) [] 0] at h
  omega

/-- C4 amended: the loop terminates only through its own stop conditions —
request failure, short page, truthy max-record cap reached, or falsy
continuation cursor; no page-count ceiling exists, so against an always
full-page, always-cursored service with no cap the pages fetched equal the
iteration budget (unbounded), while a first short page stops the loop after
exactly one page no matter the budget. -/
theorem page_loop_stop_conditions :
    (∀ fuel : Nat,
      (get_upload_entries_loop (fullPageService 100) 100 none fuel []
        0).2 = fuel) ∧
    (∀ (service : Nat → Except Unit Page) (page_size : Nat)
      (max_entries : Option Nat) (fuel : Nat) (pg : Page),
      service 0 = .ok pg → pg.data.length < page_size →
      get_upload_entries_loop service page_size max_entries (fuel + 1) []
        0 = (pg.data, 1)) := by
  constructor
  · intro fuel
    rw [fullPageService_loop_pages fuel [] 0]
    omega
  · exact short_page_stop

def shortPage : Page :=
  { data := ["r0"], next_page_after_value := some "cursor" }

def shortPageService : Nat → Except Unit Page :=
  fun _ => Except.ok shortPage

/-- Witness for the amended C4 theorem: a service whose first page is short
stops the loop after one page. -/
theorem page_loop_stop_conditions_witness :
    (shortPageService 0 = Except.ok shortPage ∧
      shortPage.data.length < 100) ∧
    get_upload_entries_loop shortPageService 100 none 5 [] 0 =
      (["r0"], 1) :=
  ⟨⟨rfl, by decide⟩,
    page_loop_stop_conditions.2 shortPageService 100 none 4 shortPage rfl
      (by decide)⟩

/-! ## Determinism of relationship inference -/

/-- Blanks the fields never read by the inference sub-algorithms
(`entry_name`, `workflow_metadata`); two entry lists equal after scrubbing
agree on every field the inference reads. -/
def scrubEntry (e : WorkflowEntry) : WorkflowEntry :=
  { e with entry_name := "", workflow_metadata := [] }

theorem insertByPriority_scrub (x : WorkflowEntry)
    (l : List WorkflowEntry) :
    insertByPriority (scrubEntry x) (l.map scrubEntry) =
      (insertByPriority x l).map scrubEntry := by
  induction l with
  | nil => rfl
  | cons y ys ih =>
    rw [List.map_cons, insertByPriority, insertByPriority]
    rw [show execution_priority (scrubEntry y) = execution_priority y
      from rfl]
    rw [show execution_priority (scrubEntry x) = execution_priority x
      from rfl]
    split
    · rw [ih, List.map_cons]
    · rw [List.map_cons, List.map_cons]

theorem sort_scrub (l : List WorkflowEntry) :
    sort_entries_by_execution_order (l.map scrubEntry) =
      (sort_entries_by_execution_order l).map scrubEntry := by
  rw [sort_entries_by_execution_order, sort_entries_by_execution_order]
  have main : ∀ (es acc : List WorkflowEntry),
      (es.map scrubEntry).foldl (fun acc x => insertByPriority x acc)
        (acc.map scrubEntry) =
      (es.foldl (fun acc x => insertByPriority x acc) acc).map scrubEntry := by
    intro es
    induction es with
    | nil => intro acc; rfl
    | cons e rest ih =>
      intro acc
      rw [List.map_cons, List.foldl_cons, List.foldl_cons,
        insertByPriority_scrub]
      exact ih (insertByPriority e acc)
  exact main l []

theorem seqRels_scrub (u : String) (l : List WorkflowEntry) :
    seqRels u (l.map scrubEntry) = seqRels u l := by
  induction l with
  | nil => rfl
  | cons a rest ih =>
    cases rest with
    | nil => rfl
    | cons b rest2 =>
      rw [List.map_cons, List.map_cons, seqRels, seqRels]
      rw [show mkSeqRel u (scrubEntry a) (scrubEntry b) = mkSeqRel u a b
        from rfl]
      rw [show (scrubEntry b :: rest2.map scrubEntry) =
        (b :: rest2).map scrubEntry from rfl]
      rw [ih]

theorem upsertApp_scrub (u : String) (e : WorkflowEntry)
    (gs : List (String × List WorkflowEntry)) :
    upsertApp u (scrubEntry e)
        (gs.map (fun g => (g.1, g.2.map scrubEntry))) =
      (upsertApp u e gs).map (fun g => (g.1, g.2.map scrubEntry)) := by
  induction gs with
  | nil => rfl
  | cons g rest ih =>
    obtain ⟨k, l⟩ := g
    rw [List.map_cons]
    rw [upsertApp, upsertApp]
    split
    · rw [List.map_cons]
      simp
    · rw [List.map_cons, ih]

theorem groupByUpload_scrub (es : List WorkflowEntry) :
    groupByUpload (es.map scrubEntry) =
      (groupByUpload es).map (fun g => (g.1, g.2.map scrubEntry)) := by
  rw [groupByUpload, groupByUpload]
  have main : ∀ (es : List WorkflowEntry)
      (acc : List (String × List WorkflowEntry)),
      (es.map scrubEntry).foldl
        (fun gs e => if e.upload_name = "" then gs
          else upsertApp e.upload_name e gs)
        (acc.map (fun g => (g.1, g.2.map scrubEntry))) =
      (es.foldl (fun gs e => if e.upload_name = "" then gs
          else upsertApp e.upload_name e gs) acc).map
        (fun g => (g.1, g.2.map scrubEntry)) := by
    intro es
    induction es with
    | nil => intro acc; rfl
    | cons e rest ih =>
      intro acc
      rw [List.map_cons, List.foldl_cons, List.foldl_cons]
      rw [show (scrubEntry e).upload_name = e.upload_name from rfl]
      split
      · exact ih acc
      · rw [show upsertApp e.upload_name (scrubEntry e)
            (acc.map (fun g => (g.1, g.2.map scrubEntry))) =
          (upsertApp e.upload_name e acc).map
            (fun g => (g.1, g.2.map scrubEntry)) from upsertApp_scrub _ e acc]
        exact ih _
  exact main es []

theorem upsertOuter_scrub (f u : String) (e : WorkflowEntry)
    (fgs : List (String × List (String × List WorkflowEntry))) :
    upsertOuter f u (scrubEntry e)
        (fgs.map (fun fg => (fg.1, fg.2.map
          (fun g => (g.1, g.2.map scrubEntry))))) =
      (upsertOuter f u e fgs).map (fun fg => (fg.1, fg.2.map
        (fun g => (g.1, g.2.map scrubEntry)))) := by
  induction fgs with
  | nil => rfl
  | cons fg rest ih =>
    obtain ⟨f0, ugs⟩ := fg
    rw [List.map_cons]
    rw [upsertOuter, upsertOuter]
    split
    · rw [List.map_cons]
      rw [show upsertApp u (scrubEntry e)
          (ugs.map (fun g => (g.1, g.2.map scrubEntry))) =
        (upsertApp u e ugs).map (fun g => (g.1, g.2.map scrubEntry))
        from upsertApp_scrub u e ugs]
    · rw [List.map_cons, ih]

theorem formulaGroups_scrub (es : List WorkflowEntry) :
    formulaGroups (es.map scrubEntry) =
      (formulaGroups es).map (fun fg => (fg.1, fg.2.map
        (fun g => (g.1, g.2.map scrubEntry)))) := by
  rw [formulaGroups, formulaGroups]
  have main : ∀ (es : List WorkflowEntry)
      (acc : List (String × List (String × List WorkflowEntry))),
      (es.map scrubEntry).foldl
        (fun fgs e => if e.formula = "" ∨ e.upload_name = "" then fgs
          else upsertOuter e.formula e.upload_name e fgs)
        (acc.map (fun fg => (fg.1, fg.2.map
          (fun g => (g.1, g.2.map scrubEntry))))) =
      (es.foldl (fun fgs e => if e.formula = "" ∨ e.upload_name = "" then fgs
          else upsertOuter e.formula e.upload_name e fgs) acc).map
        (fun fg => (fg.1, fg.2.map (fun g => (g.1, g.2.map scrubEntry)))) := by
    intro es
    induction es with
    | nil => intro acc; rfl
    | cons e rest ih =>
      intro acc
      rw [List.map_cons, List.foldl_cons, List.foldl_cons]
      rw [show (scrubEntry e).formula = e.formula from rfl]
      rw [show (scrubEntry e).upload_name = e.upload_name from rfl]
      split
      · exact ih acc
      · rw [show upsertOuter e.formula e.upload_name (scrubEntry e)
            (acc.map (fun fg => (fg.1, fg.2.map
              (fun g => (g.1, g.2.map scrubEntry))))) =
          (upsertOuter e.formula e.upload_name e acc).map
            (fun fg => (fg.1, fg.2.map (fun g => (g.1, g.2.map scrubEntry))))
          from upsertOuter_scrub _ _ e acc]
        exact ih _
  exact main es []

theorem pairsAsc_map {α β : Type} (f : α → β) (l : List α) :
    pairsAsc (l.map f) = (pairsAsc l).map (fun pr => (f pr.1, f pr.2)) := by
  induction l with
  | nil => rfl
  | cons x xs ih =>
    rw [List.map_cons, pairsAsc, pairsAsc, ih, List.map_append,
      List.map_map, List.map_map]
    rfl

theorem mkCrossRel_scrub (f : String)
    (pr : (String × List WorkflowEntry) × (String × List WorkflowEntry)) :
    mkCrossRel f ((pr.1.1, pr.1.2.map scrubEntry),
      (pr.2.1, pr.2.2.map scrubEntry)) = mkCrossRel f pr := by
  obtain ⟨⟨u1, l1⟩, u2, l2⟩ := pr
  cases l1 <;> cases l2 <;> rfl

theorem find_cross_scrub (es : List WorkflowEntry) :
    find_cross_upload_relationships (es.map scrubEntry) =
      find_cross_upload_relationships es := by
  rw [find_cross_upload_relationships, find_cross_upload_relationships,
    foldl_append_eq_flatMap, foldl_append_eq_flatMap, List.nil_append,
    List.nil_append, formulaGroups_scrub]
  have main : ∀ fgs : List (String × List (String × List WorkflowEntry)),
      (fgs.map (fun fg => (fg.1, fg.2.map
        (fun g => (g.1, g.2.map scrubEntry))))).flatMap
        (fun fg => (pairsAsc fg.2).filterMap (mkCrossRel fg.1)) =
      fgs.flatMap (fun fg => (pairsAsc fg.2).filterMap (mkCrossRel fg.1)) := by
    intro fgs
    induction fgs with
    | nil => rfl
    | cons fg rest ih =>
      rw [List.map_cons, List.flatMap_cons, List.flatMap_cons, ih]
      congr 1
      rw [show ((fg.1, fg.2.map (fun g => (g.1, g.2.map scrubEntry))) :
          String × List (String × List WorkflowEntry)).2 =
        fg.2.map (fun g => (g.1, g.2.map scrubEntry)) from rfl]
      rw [pairsAsc_map, List.filterMap_map]
      apply List.filterMap_congr
      intro pr _
      exact mkCrossRel_scrub fg.1 pr
  exact main (formulaGroups es)

theorem infer_scrub (es : List WorkflowEntry) :
    infer_workflow_relationships (es.map scrubEntry) =
      infer_workflow_relationships es := by
  rw [infer_workflow_relationships, infer_workflow_relationships,
    groupByUpload_scrub, find_cross_scrub]
  congr 1
  have main : ∀ (gs : List (String × List WorkflowEntry))
      (acc : List Relationship),
      (gs.map (fun g => (g.1, g.2.map scrubEntry))).foldl
        (fun acc g => if g.2.length ≤ 1 then acc
          else acc ++ seqRels g.1 (sort_entries_by_execution_order g.2))
        acc =
      gs.foldl (fun acc g => if g.2.length ≤ 1 then acc
          else acc ++ seqRels g.1 (sort_entries_by_execution_order g.2))
        acc := by
    intro gs
    induction gs with
    | nil => intro acc; rfl
    | cons g rest ih =>
      intro acc
      rw [List.map_cons, List.foldl_cons, List.foldl_cons]
      rw [show ((g.1, g.2.map scrubEntry) :
          String × List WorkflowEntry).2.length = g.2.length
        from List.length_map g.2 scrubEntry]
      split
      · exact ih acc
      · rw [show sort_entries_by_execution_order
            ((g.1, g.2.map scrubEntry) : String × List WorkflowEntry).2 =
          (sort_entries_by_execution_order g.2).map scrubEntry
          from sort_scrub g.2]
        rw [seqRels_scrub]
        exact ih _
  exact main (groupByUpload es) []

/-! ## Cluster-size series (`enhance_cluster_relationships`, lines 66-314):
the pure edge-derivation core; the Memgraph reads/writes around it supply
the `(formula, entry_id, entry_name)` rows and consume the edges. -/

def element_families : List (String × List String) :=
  [("noble_gases", ["He", "Ne", "Ar", "Kr", "Xe", "Rn"]),
   ("alkali_metals", ["Li", "Na", "K", "Rb", "Cs"]),
   ("alkaline_earth", ["Be", "Mg", "Ca", "Sr", "Ba"]),
   ("transition_metals",
    ["Sc", "Ti", "V", "Cr", "Mn", "Fe", "Co", "Ni", "Cu", "Zn",
     "Y", "Zr", "Nb", "Mo", "Tc", "Ru", "Rh", "Pd", "Ag", "Cd",
     "Hf", "Ta", "W", "Re", "Os", "Ir", "Pt", "Au", "Hg"]),
   ("halogens", ["F", "Cl", "Br", "I"]),
   ("metalloids", ["B", "Si", "Ge", "As", "Sb", "Te", "Po"]),
   ("p_block", ["C", "N", "O", "P", "S"]),
   ("post_transition", ["Al", "Ga", "In", "Tl", "Sn", "Pb", "Bi"])]

/-- Python `max(items, key=lambda x: x[1])` on a non-empty association
list: the first pair with the maximal count (ties keep the earlier pair). -/
def maxBySnd : List (String × Nat) → Option (String × Nat)
  | [] => none
  | p :: rest =>
    some (rest.foldl (fun best q => if best.2 < q.2 then q else best) p)

/-- The first family whose member list contains the element
(`for family, elements in element_families.items(): ... break`). -/
def familyOf (el : String) : Option String :=
  (element_families.find? (fun fam => fam.2.contains el)).map Prod.fst

/-- `defaultdict(lambda: defaultdict(list))` update at a string key then a
size key. -/
def upsertNested {β : Type} (k1 : String) (k2 : Nat) (v : β) :
    List (String × List (Nat × List β)) → List (String × List (Nat × List β))
  | [] => [(k1, [(k2, [v])])]
  | (k0, sm) :: rest =>
    if k0 = k1 then (k0, upsertApp k2 v sm) :: rest
    else (k0, sm) :: upsertNested k1 k2 v rest

/-- The three groupings built from the formula rows (lines 105-130). -/
structure ClusterMaps where
  byElement : List (String × List (Nat × List (String × String)))
  byFamily : List (String × List (Nat × List (String × String × String)))
  byGlobal : List (Nat × List (String × String × String))
deriving Repr

def organizeRow (acc : ClusterMaps) (formula entry_id : String) :
    ClusterMaps :=
  if formula = "" ∨ entry_id = "" then acc
  else
    let parsed := parse_formula_carefully formula
    match maxBySnd parsed with
    | none => acc
    | some pe =>
      let total := (parsed.map Prod.snd).sum
      let acc1 := { acc with byElement := upsertNested pe.1 total (formula, entry_id) acc.byElement }
      let acc2 :=
        match familyOf pe.1 with
        | some fam => { acc1 with byFamily := upsertNested fam total (formula, entry_id, pe.1) acc1.byFamily }
        | none => acc1
      { acc2 with byGlobal := upsertApp total (formula, entry_id, pe.1) acc2.byGlobal }

/-- Ascending stable insertion sort on the size keys (Python
`sorted(size_dict.keys())`). -/
def insertNatAsc (x : Nat) : List Nat → List Nat
  | [] => [x]
  | y :: ys => if y ≤ x then y :: insertNatAsc x ys else x :: y :: ys

def sortNat (l : List Nat) : List Nat :=
  l.foldl (fun acc x => insertNatAsc x acc) []

/-- The `for i in range(len(sizes) - 1)` consecutive-size pairs. -/
def consecPairs : List Nat → List (Nat × Nat)
  | a :: b :: rest => (a, b) :: consecPairs (b :: rest)
  | _ => []

/-- One persisted CLUSTER_SIZE_SERIES edge with its properties. -/
structure ClusterEdge where
  smaller_id : String
  larger_id : String
  series_type : String
  tag : String
  smaller_size : Nat
  larger_size : Nat
  smaller_formula : String
  larger_formula : String
  confidence : ℚ
  reasoning : String
deriving DecidableEq, Repr

/-- `create_element_series` (lines 162-209): confidence 0.95. -/
def create_element_series_edges (element : String)
    (size_dict : List (Nat × List (String × String))) (sizes : List Nat) :
    List ClusterEdge :=
  (consecPairs sizes).filterMap (fun pr =>
    match (size_dict.lookup pr.1).getD [], (size_dict.lookup pr.2).getD []
      with
    | (sf, sid) :: _, (lf, lid) :: _ =>
      some { smaller_id := sid, larger_id := lid,
             series_type := "same_element", tag := element,
             smaller_size := pr.1, larger_size := pr.2,
             smaller_formula := sf, larger_formula := lf,
             confidence := 19/20,
             reasoning := "Same element cluster series: " ++ element ++
               " from " ++ toString pr.1 ++ " to " ++ toString pr.2 ++
               " atoms" }
    | _, _ => none)

/-- `create_family_series` (lines 211-262): confidence 0.85. -/
def create_family_series_edges (family : String)
    (size_dict : List (Nat × List (String × String × String)))
    (sizes : List Nat) : List ClusterEdge :=
  (consecPairs sizes).filterMap (fun pr =>
    match (size_dict.lookup pr.1).getD [], (size_dict.lookup pr.2).getD []
      with
    | (sf, sid, sel) :: _, (lf, lid, lel) :: _ =>
      some { smaller_id := sid, larger_id := lid,
             series_type := "element_family", tag := family,
             smaller_size := pr.1, larger_size := pr.2,
             smaller_formula := sf, larger_formula := lf,
             confidence := 17/20,
             reasoning := family ++ " family cluster series: " ++ sel ++
               toString pr.1 ++ " → " ++ lel ++ toString pr.2 }
    | _, _ => none)

/-- `create_global_series` (lines 264-314): confidence 0.75. -/
def create_global_series_edges
    (size_reps : List (Nat × List (String × String × String)))
    (sizes : List Nat) : List ClusterEdge :=
  (consecPairs sizes).filterMap (fun pr =>
    match (size_reps.lookup pr.1).getD [], (size_reps.lookup pr.2).getD []
      with
    | (sf, sid, sel) :: _, (lf, lid, lel) :: _ =>
      some { smaller_id := sid, larger_id := lid,
             series_type := "global_size", tag := sel ++ "-" ++ lel,
             smaller_size := pr.1, larger_size := pr.2,
             smaller_formula := sf, larger_formula := lf,
             confidence := 3/4,
             reasoning := "Global cluster size progression: " ++
               toString pr.1 ++ " → " ++ toString pr.2 ++ " atoms (" ++
               sf ++ " → " ++ lf ++ ")" }
    | _, _ => none)

/-- The pure core of `enhance_cluster_relationships` (lines 66-161): build
the three groupings from the queried `(formula, entry_id, entry_name)` rows
(the entry name is read but unused), then emit the same-element,
element-family and global series edges in that order. -/
def enhance_cluster_edges (rows : List (String × String × String)) :
    List ClusterEdge :=
  let maps := rows.foldl (fun acc r => organizeRow acc r.1 r.2.1)
    { byElement := [], byFamily := [], byGlobal := [] }
  (maps.byElement.foldl (fun acc p =>
      let sizes := sortNat (p.2.map Prod.fst)
      if 1 < sizes.length then
        acc ++ create_element_series_edges p.1 p.2 sizes
      else acc) [])
  ++ (maps.byFamily.foldl (fun acc p =>
      let sizes := sortNat (p.2.map Prod.fst)
      if 1 < sizes.length then
        acc ++ create_family_series_edges p.1 p.2 sizes
      else acc) [])
  ++ (let sizes := sortNat (maps.byGlobal.map Prod.fst)
      if 1 < sizes.length then
        create_global_series_edges maps.byGlobal sizes
      else [])

theorem enhance_scrubRow (rows : List (String × String × String)) :
    enhance_cluster_edges (rows.map (fun r => (r.1, r.2.1, ""))) =
      enhance_cluster_edges rows := by
  rw [enhance_cluster_edges, enhance_cluster_edges, List.foldl_map]

/-- C8: relationship inference is deterministic and free of hidden inputs.
The orchestrator's sequential and cross-group sub-algorithms are a pure
function of each entry's id, type, formula, group key and file flags: two
entry lists that agree on those fields (equal after scrubbing the unused
display fields `entry_name` and `workflow_metadata`) yield identical edge
lists, triples and confidences alike. Likewise the cluster-size series core
is a pure function of the `(formula, entry_id)` projection of its rows (the
queried `entry_name` is never used). In particular two runs on an
identical, order-fixed input produce identical edge sets; nothing depends
on randomness or wall-clock time. -/
theorem inference_determinism :
    (∀ es1 es2 : List WorkflowEntry,
      es1.map scrubEntry = es2.map scrubEntry →
      infer_workflow_relationships es1 = infer_workflow_relationships es2) ∧
    (∀ rows1 rows2 : List (String × String × String),
      rows1.map (fun r => (r.1, r.2.1)) = rows2.map (fun r => (r.1, r.2.1)) →
      enhance_cluster_edges rows1 = enhance_cluster_edges rows2) := by
  constructor
  · intro es1 es2 h
    calc infer_workflow_relationships es1
        = infer_workflow_relationships (es1.map scrubEntry) :=
          (infer_scrub es1).symm
      _ = infer_workflow_relationships (es2.map scrubEntry) := by rw [h]
      _ = infer_workflow_relationships es2 := infer_scrub es2
  · intro rows1 rows2 h
    have hexp : ∀ rows : List (String × String × String),
        rows.map (fun r => (r.1, r.2.1, "")) =
          (rows.map (fun r => (r.1, r.2.1))).map (fun p => (p.1, p.2, "")) := by
      intro rows
      rw [List.map_map]
      rfl
    calc enhance_cluster_edges rows1
        = enhance_cluster_edges (rows1.map (fun r => (r.1, r.2.1, ""))) :=
          (enhance_scrubRow rows1).symm
      _ = enhance_cluster_edges (rows2.map (fun r => (r.1, r.2.1, ""))) := by
          rw [hexp rows1, hexp rows2, h]
      _ = enhance_cluster_edges rows2 := enhance_scrubRow rows2

def c8RenamedEntry : WorkflowEntry :=
  { c1Entry with entry_name := "renamed", workflow_metadata := [("note", "x")] }

/-- Witness for C8 at concrete inputs differing only in the display-only
fields. -/
theorem inference_determinism_witness :
    ([c1Entry].map scrubEntry = [c8RenamedEntry].map scrubEntry ∧
      infer_workflow_relationships [c1Entry] =
        infer_workflow_relationships [c8RenamedEntry]) ∧
    ([("C4", "e1", "nameA")].map
        (fun r : String × String × String => (r.1, r.2.1)) =
      [("C4", "e1", "nameB")].map (fun r => (r.1, r.2.1)) ∧
      enhance_cluster_edges [("C4", "e1", "nameA")] =
        enhance_cluster_edges [("C4", "e1", "nameB")]) :=
  ⟨⟨by decide,
      inference_determinism.1 [c1Entry] [c8RenamedEntry] (by decide)⟩,
    ⟨by decide,
      inference_determinism.2 [("C4", "e1", "nameA")]
        [("C4", "e1", "nameB")] (by decide)⟩⟩
